import Mathlib

/-!
Shallow embedding of the Podcast Sentiment Explorer dashboard (src/app.py).

The app is a single-pass pandas/streamlit pipeline.  We embed the pure
content of each stage: column resolution, string coercion, the three row
filters, the sentiment aggregation, the keyword extractor, and the
display-column renaming.  A pandas DataFrame row is modelled by the three
normalized internal fields the pipeline creates (`_text`, `_sentiment`,
`_episode`); a dataset is an ordered list of rows.  Machine floats in the
percentage computation are modelled by exact rationals; Python string
case-folding and whitespace are modelled for the ASCII range.
-/

/-- Whitespace characters recognized by Python's `str.strip` / `\s`
(ASCII range). -/
def isSpaceCh (c : Char) : Bool :=
  c = ' ' || c = '\t' || c = '\n' || c = '\r' || c = '\x0b' || c = '\x0c'

/-- Models Python `str.strip()`: drop whitespace from both ends (ASCII). -/
def trimChars (l : List Char) : List Char :=
  ((l.dropWhile isSpaceCh).reverse.dropWhile isSpaceCh).reverse

/-- Models Python `str.strip()` on strings. -/
def pyStrip (s : String) : String := ⟨trimChars s.data⟩

/-- Models Python `str.lower()` (ASCII case folding). -/
def lowerStr (s : String) : String := ⟨s.data.map Char.toLower⟩

/-!
Regular-expression model for `pandas.Series.str.contains(pat, case=False)`,
whose default is `regex=True`: the pattern is compiled with `re.IGNORECASE`
and matched with `re.search` (anywhere in the string).  We model the
fragment of Python regex syntax exercised by the app: ordinary characters
and the metacharacter `.`; patterns using any other metacharacter are out
of the modelled fragment and `parsePat` rejects them.
-/

/-- One regex atom: an ordinary character or the wildcard `.`. -/
inductive Atom where
  | lit (c : Char)
  | dot
deriving DecidableEq

/-- Python regex special characters (outside character classes) other than
`.`; patterns containing them are outside the modelled fragment. -/
def METACHARS : List Char :=
  ['^', '$', '*', '+', '?', '{', '}', '[', ']', '\\', '|', '(', ')']

/-- Parse a single pattern character into an atom; `none` for an
unmodelled metacharacter. -/
def parseAtom (c : Char) : Option Atom :=
  if c = '.' then some Atom.dot
  else if c ∈ METACHARS then none
  else some (Atom.lit c)

/-- Parse a whole pattern (sequence of atoms, no quantifiers). -/
def parsePat : List Char → Option (List Atom)
  | [] => some []
  | c :: cs =>
    match parseAtom c, parsePat cs with
    | some a, some as => some (a :: as)
    | _, _ => none

/-- A pattern character with no special regex meaning (also not `.`). -/
def plainChar (c : Char) : Bool := !(c = '.') && !(c ∈ METACHARS)

/-- Whether one atom matches one subject character, under `re.IGNORECASE`
(ASCII case folding); `.` matches every character except newline. -/
def atomMatches (a : Atom) (c : Char) : Bool :=
  match a with
  | Atom.lit d => d.toLower = c.toLower
  | Atom.dot => !(c = '\n')

/-- Whether the atom sequence matches at the start of the subject. -/
def matchHere : List Atom → List Char → Bool
  | [], _ => true
  | _ :: _, [] => false
  | a :: as, c :: cs => atomMatches a c && matchHere as cs

/-- Models `re.search`: the atom sequence matches somewhere in the
subject. -/
def reSearch (ats : List Atom) : List Char → Bool
  | [] => matchHere ats []
  | c :: cs => matchHere ats (c :: cs) || reSearch ats cs

/-- Elementwise model of `Series.str.contains(pat, case=False, na=False)`
for a parsed pattern: case-insensitive regex search in the cell text. -/
def pyContainsCI (ats : List Atom) (s : String) : Bool := reSearch ats s.data

/-- Spec-side notion (for comparison with the code): `q` occurs at the
start of `s`, literal character-by-character. -/
def occursAt : List Char → List Char → Bool
  | [], _ => true
  | _ :: _, [] => false
  | a :: as, b :: bs => a = b && occursAt as bs

/-- Spec-side notion: `q` occurs literally somewhere inside `s`. -/
def containsSub (q : List Char) : List Char → Bool
  | [] => occursAt q []
  | c :: cs => occursAt q (c :: cs) || containsSub q cs

/-- Spec-side notion from the claim's words: literal case-insensitive
substring containment of `q` in `s`. -/
def specContainsCI (q s : String) : Bool :=
  containsSub (lowerStr q).data (lowerStr s).data

/-!  Data model: one row of the normalized DataFrame. -/

/-- A comment row after normalization: the internal `_text`, `_sentiment`
and `_episode` fields of src/app.py. -/
structure Row where
  text : String
  sentiment : String
  episode : String
deriving DecidableEq

/-- Models `pandas .astype(str)` on one cell: a missing value (NaN)
stringifies to the literal `"nan"` (src/app.py line 73). -/
def astypeStr : Option String → String
  | none => "nan"
  | some s => s

/-!  Column resolver (src/app.py lines 62-70). -/

/-- The prioritized candidate names for the comment-text column. -/
def TEXT_COL_CANDIDATES : List String := ["text", "comment", "comment_text", "body"]

/-- The user-visible error message when no text column is found
(src/app.py lines 66-69). -/
def MISSING_TEXT_COL_MSG : String :=
  "I couldn't find a comment text column.\n\nYour CSV needs a column named one of: `text`, `comment`, `comment_text`, `body`."

/-- Models lines 62-70: pick the first candidate present among the CSV's
columns; otherwise fail with the user-visible message (`st.stop()` halts
the render pass, modelled by `Except.error`). -/
def textColStage (cols : List String) : Except String String :=
  match TEXT_COL_CANDIDATES.find? (fun c => cols.contains c) with
  | some c => Except.ok c
  | none => Except.error MISSING_TEXT_COL_MSG

/-!  Filter stage (src/app.py lines 106-107, 293-297) and drilldown
(lines 244-246). -/

/-- Episode filter (lines 106-107): exact match unless the
"All episodes" sentinel is chosen. -/
def episodeFilter (choice : String) (rows : List Row) : List Row :=
  if choice = "All episodes" then rows
  else rows.filter (fun r => decide (r.episode = choice))

/-- Sentiment filter (lines 293-294): exact match unless "all". -/
def sentimentFilter (choice : String) (rows : List Row) : List Row :=
  if choice = "all" then rows
  else rows.filter (fun r => decide (r.sentiment = choice))

/-- Text search filter (lines 296-297): a stripped empty query is a
no-op; otherwise `str.contains(query.strip(), case=False, na=False)`,
i.e. a case-insensitive regex search.  `none` when the query is outside
the modelled regex fragment. -/
def searchFilter (query : String) (rows : List Row) : Option (List Row) :=
  let q := pyStrip query
  if q = "" then some rows
  else (parsePat q.data).map (fun ats => rows.filter (fun r => pyContainsCI ats r.text))

/-- Keyword drilldown (lines 244-246): the "(none)" sentinel keeps the
current dataset; otherwise `str.contains(chosen_kw, case=False, na=False)`
with the keyword, exactly the search filter's predicate. -/
def drilldown (kw : String) (rows : List Row) : Option (List Row) :=
  if kw = "(none)" then some rows
  else (parsePat kw.data).map (fun ats => rows.filter (fun r => pyContainsCI ats r.text))

/-!  Keyword extractor (src/app.py lines 181-209). -/

/-- The fixed stopword list of src/app.py lines 181-185. -/
def STOPWORDS : List String :=
  ["a", "an", "and", "are", "as", "at", "be", "but", "by", "for", "from",
   "has", "have", "he", "her", "hers", "him", "his", "i", "if", "in",
   "into", "is", "it", "its", "just", "me", "my", "no", "not", "of", "on",
   "or", "our", "ours", "she", "so", "that", "the", "their", "them",
   "then", "there", "these", "they", "this", "to", "too", "up", "was",
   "we", "were", "what", "when", "where", "which", "who", "will", "with",
   "you", "your", "yours"]

/-- Token characters of the regex `[a-zA-Z']+` (line 191). -/
def isWordChar (c : Char) : Bool :=
  ('a' ≤ c && c ≤ 'z') || ('A' ≤ c && c ≤ 'Z') || c = '\''

/-- Whether `tag` sits at the head of `l` and is followed by at least one
non-whitespace character (the `\S+` of the URL pattern). -/
def hasURLHead (tag : List Char) (l : List Char) : Bool :=
  occursAt tag l &&
    (match l.drop tag.length with
     | [] => false
     | r :: _ => !(isSpaceCh r))

/-- Fuelled model of `re.sub(r"http\S+|www\.\S+", " ", text)` (line 189):
scan left to right; at a position where `http` or `www.` is followed by a
non-space run, emit one space and resume after that run.  The fuel is an
upper bound on the input length, so it never runs out when called through
`stripURLs`. -/
def stripURLsF : Nat → List Char → List Char
  | _, [] => []
  | 0, _ :: _ => []
  | n + 1, c :: cs =>
    if hasURLHead ['h', 't', 't', 'p'] (c :: cs) ||
        hasURLHead ['w', 'w', 'w', '.'] (c :: cs) then
      ' ' :: stripURLsF n (((c :: cs).drop 4).dropWhile (fun d => !(isSpaceCh d)))
    else
      c :: stripURLsF n cs

/-- URL stripping with sufficient fuel. -/
def stripURLs (l : List Char) : List Char := stripURLsF l.length l

/-- Models `re.findall(r"[a-zA-Z']+", text)`: maximal runs of word
characters, accumulated in `acc` (reversed) while scanning. -/
def findWordsF : List Char → List Char → List String
  | [], acc => if acc = [] then [] else [⟨acc.reverse⟩]
  | c :: cs, acc =>
    if isWordChar c then findWordsF cs (c :: acc)
    else if acc = [] then findWordsF cs []
    else ⟨acc.reverse⟩ :: findWordsF cs []

/-- Models `tokenize` (lines 187-192): lowercase, strip URLs, then take
the maximal `[a-zA-Z']+` runs. -/
def tokenize (text : String) : List String :=
  findWordsF (stripURLs (lowerStr text).data) []

/-- Models `str.isnumeric()` for the ASCII range: nonempty and all
digits.  Tokens contain only letters and apostrophes, so on extractor
tokens this is always false (the app's defensive check, line 203). -/
def pyIsNumeric (w : String) : Bool :=
  !(w.data = []) && w.data.all (fun c => c.isDigit)

/-- The per-token keep condition of the extractor loop (lines 199-204):
long enough, not a stopword, not numeric. -/
def keepToken (minLen : Nat) (w : String) : Bool :=
  !(w.length < minLen) && !(STOPWORDS.contains w) && !(pyIsNumeric w)

/-- The `tokens` list built by lines 196-205: tokens of every text, in
input order, with the keep condition applied.  (The series is already
string-typed, so `dropna().astype(str)` is the identity.) -/
def keptTokens (texts : List String) (minLen : Nat) : List String :=
  (texts.map tokenize).flatten.filter (keepToken minLen)

/-- Key order of `collections.Counter` (a dict): keys in order of first
insertion, i.e. first occurrence in the token stream. -/
def counterKeys (ts : List String) : List String :=
  ts.foldl (fun ks t => if t ∈ ks then ks else ks ++ [t]) []

/-- `Counter(ts).items()`: each distinct token, in first-occurrence
order, with its multiplicity. -/
def counterItems (ts : List String) : List (String × Nat) :=
  (counterKeys ts).map (fun k => (k, ts.count k))

/-- Stable descending insertion by count: the new pair goes after every
pair with count ≥ its own. -/
def insertDesc : List (String × Nat) → String × Nat → List (String × Nat)
  | [], p => [p]
  | q :: qs, p => if p.2 > q.2 then p :: q :: qs else q :: insertDesc qs p

/-- Stable sort by descending count (models the stable descending order
of `heapq.nlargest` / `sorted(..., reverse=True)` used by
`Counter.most_common`). -/
def sortCountDesc (l : List (String × Nat)) : List (String × Nat) :=
  l.foldl insertDesc []

/-- Models `Counter(ts).most_common(n)`: stable descending sort by count,
then the first `n` entries. -/
def mostCommon (ts : List String) (n : Nat) : List (String × Nat) :=
  (sortCountDesc (counterItems ts)).take n

/-- Models `extract_top_keywords` (lines 194-209): count the kept tokens
and return the `top_n` most common as (keyword, count) pairs. -/
def extract_top_keywords (texts : List String) (top_n : Nat) (min_len : Nat) : List (String × Nat) :=
  mostCommon (keptTokens texts min_len) top_n

/-!  Aggregator (src/app.py lines 118, 124-127, 147-155). -/

/-- Models `df.groupby("_sentiment").size()` followed by
`sort_values("count", ascending=False)` (lines 147-152): one (label,
count) pair per distinct sentiment value, sorted by descending count.
(pandas emits groupby keys alphabetically before the count sort; no
stated property depends on the order of equal-count labels.) -/
def sentCounts (rows : List Row) : List (String × Nat) :=
  sortCountDesc (counterItems (rows.map (fun r => r.sentiment)))

/-- Models Python `round(x, 2)` on the exact rational value (round half
up; Python rounds the underlying binary float half to even, which agrees
everywhere the two representations agree). -/
def round2 (q : ℚ) : ℚ := ((Rat.floor (q * 100 + 1 / 2) : ℤ) : ℚ) / 100

/-- Models line 155: the percentage column
`(count / max(total, 1) * 100).round(2)` attached to the sentiment
counts. -/
def sentCountsPct (rows : List Row) : List (String × Nat × ℚ) :=
  (sentCounts rows).map
    (fun p => (p.1, p.2, round2 ((p.2 : ℚ) / ((max rows.length 1 : Nat) : ℚ) * 100)))

/-- Models `pct_for` (lines 124-127): KPI percentage for one label, with
the explicit zero-rows guard. -/
def pct_for (rows : List Row) (label : String) : ℚ :=
  if rows.length = 0 then 0
  else ((rows.countP (fun r => decide (r.sentiment = label)) : ℚ) / (rows.length : ℚ)) * 100

/-!  Presentation: display columns and chart tooltip
(src/app.py lines 157-165, 250-264, 301-312). -/

/-- The candidate display columns of lines 252 and 302, in order. -/
def DISPLAY_CANDIDATES : List String :=
  ["_episode", "author", "_text", "_sentiment", "bert_score", "vader_label",
   "vader_score", "published_at", "like_count"]

/-- The rename map applied to the displayed table (lines 264 and 310). -/
def renameDisplay (c : String) : String :=
  if c = "_text" then "text"
  else if c = "_sentiment" then "sentiment"
  else if c = "_episode" then "episode_title"
  else c

/-- Models lines 250-262 / 301-307: the subset of candidate columns
present in the frame, the redundant author removal, and the fallback to
all columns when nothing matched. -/
def colsToShow (cols : List String) : List String :=
  let l := DISPLAY_CANDIDATES.filter (fun c => cols.contains c)
  let l2 := if cols.contains "author" then l else l.filter (fun c => !(c = "author"))
  if l2 = [] then cols else l2

/-- The column names the user actually sees in a rendered table: the
selected columns after the rename of lines 264 / 310. -/
def displayCols (cols : List String) : List String :=
  (colsToShow cols).map renameDisplay

/-- The tooltip field list of the sentiment bar chart (line 163). -/
def chartTooltip : List String := ["_sentiment", "count", "percentage"]

/-- A column name in the internal underscore-prefixed form. -/
def internalName (s : String) : Bool :=
  match s.data with
  | '_' :: _ => true
  | _ => false

/-- Recursive characterization of `counterKeys` (first-occurrence order
of the distinct tokens), convenient for induction. -/
def counterKeysRec : List String → List String
  | [] => []
  | t :: ts => t :: counterKeysRec (ts.filter (fun x => !(x = t)))
termination_by l => l.length
decreasing_by
  simp only [List.length_cons, Nat.lt_succ_iff]
  exact List.length_filter_le _ _

/-!  Helper lemmas: the regex fragment on plain patterns is literal
case-insensitive substring search. -/

theorem matchHere_lit (q : List Char) : ∀ s : List Char,
    matchHere (q.map Atom.lit) s = occursAt (q.map Char.toLower) (s.map Char.toLower) := by
  induction q with
  | nil => intro s; cases s <;> simp [matchHere, occursAt]
  | cons a as ih =>
    intro s
    cases s with
    | nil => simp [matchHere, occursAt]
    | cons b bs => simp [matchHere, occursAt, atomMatches, ih]

theorem reSearch_lit (q : List Char) : ∀ s : List Char,
    reSearch (q.map Atom.lit) s = containsSub (q.map Char.toLower) (s.map Char.toLower) := by
  intro s
  induction s with
  | nil => simp [reSearch, containsSub, matchHere_lit]
  | cons c cs ih => simp [reSearch, containsSub, matchHere_lit, ih]

theorem parsePat_plain : ∀ q : List Char, (∀ c ∈ q, plainChar c = true) →
    parsePat q = some (q.map Atom.lit) := by
  intro q
  induction q with
  | nil => intro _; rfl
  | cons c cs ih =>
    intro h
    have hc := h c (by simp)
    simp only [plainChar, Bool.and_eq_true, Bool.not_eq_true', decide_eq_false_iff_not] at hc
    have hcs : parsePat cs = some (cs.map Atom.lit) := ih (fun d hd => h d (by simp [hd]))
    simp [parsePat, parseAtom, hc.1, hc.2, hcs]

/-- Claim C1: the claim states that the free-text search keeps exactly
the rows whose text contains the query as a literal case-insensitive
substring, for every query string.  This is false: the code passes the
query to `Series.str.contains` with its default `regex=True`, so the
query `"."` (a regex wildcard) keeps a row whose text `"abc"` does not
contain a literal `"."`. -/
theorem search_regex_counterexample :
    searchFilter "." [⟨"abc", "positive", "All comments"⟩] =
      some [⟨"abc", "positive", "All comments"⟩] ∧
    specContainsCI "." "abc" = false := by
  constructor
  · rfl
  · rfl

/-- Claim C1 (amended): the query is interpreted as a case-insensitive
regular expression; for queries whose stripped form contains no regex
metacharacter the filter keeps exactly the rows whose coerced text
contains the stripped query as a case-insensitive literal substring, and
a query that strips to the empty string leaves the row set unchanged.
(After the load-time `astype(str)` coercion no text cell is null, and
`na=False` would make a null non-matching rather than an error.) -/
theorem search_filter_plain (query : String) (rows : List Row)
    (hplain : ∀ c ∈ (pyStrip query).data, plainChar c = true) :
    (pyStrip query = "" → searchFilter query rows = some rows) ∧
    (pyStrip query ≠ "" →
      searchFilter query rows =
        some (rows.filter (fun r => specContainsCI (pyStrip query) r.text))) := by
  constructor
  · intro h
    simp [searchFilter, h]
  · intro hne
    simp only [searchFilter, if_neg hne]
    rw [parsePat_plain _ hplain]
    simp only [Option.map_some', Option.some.injEq]
    apply List.filter_congr
    intro r _
    show reSearch _ _ = _
    rw [reSearch_lit]
    rfl

/-- Witness for `search_filter_plain`: the spec's Scenario 4 — searching
`"love"` over three rows keeps exactly rows 1 and 3 ("loved" matches
because it contains "love"; matching is case-insensitive). -/
theorem search_filter_plain_witness :
    (∀ c ∈ (pyStrip "love").data, plainChar c = true) ∧
    (pyStrip "love" ≠ "" →
      searchFilter "love"
          [⟨"I love this show", "p", "e"⟩, ⟨"Not my favorite", "p", "e"⟩,
           ⟨"I loved episode 3", "p", "e"⟩] =
        some (List.filter
          (fun r => specContainsCI (pyStrip "love") r.text)
          [⟨"I love this show", "p", "e"⟩, ⟨"Not my favorite", "p", "e"⟩,
           ⟨"I loved episode 3", "p", "e"⟩])) :=
  ⟨by decide,
   (search_filter_plain "love"
      [⟨"I love this show", "p", "e"⟩, ⟨"Not my favorite", "p", "e"⟩,
       ⟨"I loved episode 3", "p", "e"⟩] (by decide)).2⟩

/-- Claim C5: column resolution picks the first present name from the
prioritized list [text, comment, comment_text, body]; it fails exactly
when none is present, with the user-visible message enumerating the
accepted names (the render pass halts there), and any successful result
is one of the candidates. -/
theorem text_col_resolution (cols : List String) :
    (textColStage cols = Except.error MISSING_TEXT_COL_MSG ↔
      ("text" ∉ cols ∧ "comment" ∉ cols ∧ "comment_text" ∉ cols ∧ "body" ∉ cols)) ∧
    (textColStage cols = Except.ok "text" ↔ "text" ∈ cols) ∧
    (textColStage cols = Except.ok "comment" ↔ ("comment" ∈ cols ∧ "text" ∉ cols)) ∧
    (textColStage cols = Except.ok "comment_text" ↔
      ("comment_text" ∈ cols ∧ "text" ∉ cols ∧ "comment" ∉ cols)) ∧
    (textColStage cols = Except.ok "body" ↔
      ("body" ∈ cols ∧ "text" ∉ cols ∧ "comment" ∉ cols ∧ "comment_text" ∉ cols)) ∧
    (∀ s, textColStage cols = Except.ok s → s ∈ TEXT_COL_CANDIDATES) := by
  by_cases h1 : "text" ∈ cols <;> by_cases h2 : "comment" ∈ cols <;>
    by_cases h3 : "comment_text" ∈ cols <;> by_cases h4 : "body" ∈ cols <;>
    simp [textColStage, TEXT_COL_CANDIDATES, List.find?, List.contains, List.elem_iff,
      h1, h2, h3, h4, MISSING_TEXT_COL_MSG]

/-- Witness for `text_col_resolution`: a CSV with columns
[author, body] resolves to `body`, which is an accepted candidate. -/
theorem text_col_resolution_witness :
    textColStage ["author", "body"] = Except.ok "body" ∧ "body" ∈ TEXT_COL_CANDIDATES :=
  ⟨rfl,
   (text_col_resolution ["author", "body"]).2.2.2.2.2 "body" rfl⟩

/-- Each filter's output is obtained by a boolean-mask `filter`, hence a
sublist of the input: order-preserving with no duplications. -/
theorem episodeFilter_sublist (choice : String) (rows : List Row) :
    (episodeFilter choice rows).Sublist rows := by
  unfold episodeFilter
  split
  · exact List.Sublist.refl rows
  · exact List.filter_sublist rows

theorem sentimentFilter_sublist (choice : String) (rows : List Row) :
    (sentimentFilter choice rows).Sublist rows := by
  unfold sentimentFilter
  split
  · exact List.Sublist.refl rows
  · exact List.filter_sublist rows

theorem searchFilter_sublist (query : String) (rows out : List Row)
    (h : searchFilter query rows = some out) : out.Sublist rows := by
  rw [show searchFilter query rows =
        (if pyStrip query = "" then some rows
         else (parsePat (pyStrip query).data).map
           (fun ats => rows.filter (fun r => pyContainsCI ats r.text))) from rfl] at h
  split at h
  · obtain rfl : rows = out := by injection h
    exact List.Sublist.refl rows
  · rw [Option.map_eq_some'] at h
    obtain ⟨ats, -, hf⟩ := h
    rw [← hf]
    exact List.filter_sublist rows

/-- Claim C8: every filter stage (episode, sentiment, text search)
returns a subsequence of its input rows — original order preserved and
row count never increased — and applying an additional filter to an
already-filtered dataset never increases the row count. -/
theorem filters_shrink (e s q : String) (rows out : List Row)
    (h : searchFilter q rows = some out) :
    (episodeFilter e rows).Sublist rows ∧
    (episodeFilter e rows).length ≤ rows.length ∧
    (sentimentFilter s rows).Sublist rows ∧
    (sentimentFilter s rows).length ≤ rows.length ∧
    out.Sublist rows ∧ out.length ≤ rows.length ∧
    (sentimentFilter s (episodeFilter e rows)).length ≤ (episodeFilter e rows).length :=
  ⟨episodeFilter_sublist e rows,
   (episodeFilter_sublist e rows).length_le,
   sentimentFilter_sublist s rows,
   (sentimentFilter_sublist s rows).length_le,
   searchFilter_sublist q rows out h,
   (searchFilter_sublist q rows out h).length_le,
   (sentimentFilter_sublist s (episodeFilter e rows)).length_le⟩

/-- Witness for `filters_shrink` on a concrete two-episode dataset with
a search for "love". -/
theorem filters_shrink_witness :
    searchFilter "love" [⟨"I love it", "positive", "ep1"⟩, ⟨"meh", "neutral", "ep2"⟩] =
      some [⟨"I love it", "positive", "ep1"⟩] ∧
    (episodeFilter "ep1" [⟨"I love it", "positive", "ep1"⟩, ⟨"meh", "neutral", "ep2"⟩]).Sublist
      [⟨"I love it", "positive", "ep1"⟩, ⟨"meh", "neutral", "ep2"⟩] ∧
    ([⟨"I love it", "positive", "ep1"⟩] : List Row).length ≤
      ([⟨"I love it", "positive", "ep1"⟩, ⟨"meh", "neutral", "ep2"⟩] : List Row).length :=
  ⟨by decide,
   (filters_shrink "ep1" "positive" "love"
      [⟨"I love it", "positive", "ep1"⟩, ⟨"meh", "neutral", "ep2"⟩]
      [⟨"I love it", "positive", "ep1"⟩] (by decide)).1,
   (filters_shrink "ep1" "positive" "love"
      [⟨"I love it", "positive", "ep1"⟩, ⟨"meh", "neutral", "ep2"⟩]
      [⟨"I love it", "positive", "ep1"⟩] (by decide)).2.2.2.2.2.1⟩

/-- Claim C9: with the "(none)" sentinel the drilldown returns the
current dataset unchanged, and for a keyword (as produced by the
extractor: nonempty, no surrounding whitespace, not the sentinel) the
drilldown is exactly the Filter Stage's text-search operation applied
with that keyword as the query. -/
theorem drilldown_eq_search (kw : String) (rows : List Row)
    (h1 : pyStrip kw = kw) (h2 : kw ≠ "") (h3 : kw ≠ "(none)") :
    drilldown "(none)" rows = some rows ∧
    drilldown kw rows = searchFilter kw rows := by
  constructor
  · simp [drilldown]
  · simp [drilldown, searchFilter, h1, h2, h3]

/-- Witness for `drilldown_eq_search` with the keyword "love". -/
theorem drilldown_eq_search_witness :
    pyStrip "love" = "love" ∧
    drilldown "(none)" [⟨"I love it", "p", "e"⟩] = some [⟨"I love it", "p", "e"⟩] ∧
    drilldown "love" [⟨"I love it", "p", "e"⟩] = searchFilter "love" [⟨"I love it", "p", "e"⟩] :=
  ⟨by decide,
   (drilldown_eq_search "love" [⟨"I love it", "p", "e"⟩] (by decide) (by decide) (by decide)).1,
   (drilldown_eq_search "love" [⟨"I love it", "p", "e"⟩] (by decide) (by decide) (by decide)).2⟩

/-- Claim C10: a missing (NaN) text cell is coerced by `astype(str)` to
the literal three-character string "nan"; such a row is non-null
downstream, matches a text search for "nan", and contributes the token
"nan" to keyword extraction like ordinary text. -/
theorem nan_coercion_behavior :
    astypeStr none = "nan" ∧
    tokenize (astypeStr none) = ["nan"] ∧
    extract_top_keywords [astypeStr none] 5 3 = [("nan", 1)] ∧
    searchFilter "nan" [⟨astypeStr none, "unknown", "All comments"⟩] =
      some [⟨astypeStr none, "unknown", "All comments"⟩] := by
  refine ⟨rfl, by decide, by decide, by decide⟩

/-- Claim C4: the claim states that the internal episode field surfaces
as "episode" and that internal-prefixed names never appear in the chart
tooltip.  Both parts fail on the code: the table rename maps `_episode`
to "episode_title" (not "episode"), and the chart tooltip field list
literally contains the internal name `_sentiment`. -/
theorem display_rename_counterexample :
    displayCols ["_episode", "_text", "_sentiment"] = ["episode_title", "text", "sentiment"] ∧
    "episode" ∉ displayCols ["_episode", "_text", "_sentiment"] ∧
    "_sentiment" ∈ chartTooltip ∧ internalName "_sentiment" = true := by
  refine ⟨by decide, by decide, by decide, by decide⟩

/-- Claim C4 (amended): in every rendered table the internal text and
sentiment fields surface as exactly "text" and "sentiment", the internal
episode field surfaces as "episode_title", and no internal-prefixed name
(and no column named "episode") appears among the displayed table
columns; the chart tooltip, however, uses the internal field name
`_sentiment` alongside "count" and "percentage". -/
theorem display_rename_amended (cols : List String)
    (hT : "_text" ∈ cols) (hS : "_sentiment" ∈ cols) (hE : "_episode" ∈ cols) :
    "text" ∈ displayCols cols ∧ "sentiment" ∈ displayCols cols ∧
    "episode_title" ∈ displayCols cols ∧
    (∀ c ∈ displayCols cols, internalName c = false) ∧
    "episode" ∉ displayCols cols ∧
    chartTooltip = ["_sentiment", "count", "percentage"] := by
  have hmem : ∀ x ∈ DISPLAY_CANDIDATES, x ∈ cols → x ≠ "author" →
      renameDisplay x ∈ displayCols cols := by
    intro x hxc hxcols hxa
    have hx1 : x ∈ DISPLAY_CANDIDATES.filter (fun c => cols.contains c) := by
      rw [List.mem_filter]
      exact ⟨hxc, by simpa [List.contains, List.elem_iff] using hxcols⟩
    unfold displayCols colsToShow
    by_cases hauth : cols.contains "author" = true
    · simp only [hauth, if_pos]
      have hne : ¬(DISPLAY_CANDIDATES.filter (fun c => cols.contains c) = []) := by
        intro hnil
        rw [hnil] at hx1
        exact (List.not_mem_nil x) hx1
      simp only [hne, if_neg]
      exact List.mem_map_of_mem renameDisplay hx1
    · simp only [hauth, if_neg, Bool.false_eq_true, not_false_iff]
      have hx2 : x ∈ (DISPLAY_CANDIDATES.filter (fun c => cols.contains c)).filter
          (fun c => !(c = "author")) := by
        rw [List.mem_filter]
        exact ⟨hx1, by simp [hxa]⟩
      have hne : ¬((DISPLAY_CANDIDATES.filter (fun c => cols.contains c)).filter
          (fun c => !(c = "author")) = []) := by
        intro hnil
        rw [hnil] at hx2
        exact (List.not_mem_nil x) hx2
      simp only [hne, if_neg]
      exact List.mem_map_of_mem renameDisplay hx2
  have hTf : "_text" ∈ DISPLAY_CANDIDATES.filter (fun c => cols.contains c) := by
    rw [List.mem_filter]
    exact ⟨by decide, by simpa [List.contains, List.elem_iff] using hT⟩
  have hkey : ∀ c ∈ displayCols cols, ∃ d ∈ DISPLAY_CANDIDATES, c = renameDisplay d := by
    intro c hc
    unfold displayCols colsToShow at hc
    by_cases hauth : cols.contains "author" = true <;>
      simp only [hauth, if_pos, if_neg, Bool.false_eq_true, not_false_iff] at hc <;>
      split at hc
    case pos.isTrue hnil =>
      rw [hnil] at hTf
      exact absurd hTf (List.not_mem_nil _)
    case pos.isFalse =>
      rw [List.mem_map] at hc
      obtain ⟨d, hd, hdr⟩ := hc
      rw [List.mem_filter] at hd
      exact ⟨d, hd.1, hdr.symm⟩
    case neg.isTrue hnil =>
      have hTf2 : "_text" ∈ (DISPLAY_CANDIDATES.filter (fun c => cols.contains c)).filter
          (fun c => !(c = "author")) := by
        rw [List.mem_filter]
        exact ⟨hTf, by decide⟩
      rw [hnil] at hTf2
      exact absurd hTf2 (List.not_mem_nil _)
    case neg.isFalse =>
      rw [List.mem_map] at hc
      obtain ⟨d, hd, hdr⟩ := hc
      rw [List.mem_filter, List.mem_filter] at hd
      exact ⟨d, hd.1.1, hdr.symm⟩
  refine ⟨?_, ?_, ?_, ?_, ?_, rfl⟩
  · have := hmem "_text" (by decide) hT (by decide)
    simpa using this
  · have := hmem "_sentiment" (by decide) hS (by decide)
    simpa using this
  · have := hmem "_episode" (by decide) hE (by decide)
    simpa using this
  · intro c hc
    obtain ⟨d, hd, rfl⟩ := hkey c hc
    fin_cases hd <;> decide
  · intro hc
    obtain ⟨d, hd, hdr⟩ := hkey _ hc
    fin_cases hd <;> exact absurd hdr (by decide)

/-- Witness for `display_rename_amended` on the minimal normalized
column set. -/
theorem display_rename_amended_witness :
    "text" ∈ displayCols ["_text", "_sentiment", "_episode"] ∧
    "episode_title" ∈ displayCols ["_text", "_sentiment", "_episode"] :=
  ⟨(display_rename_amended ["_text", "_sentiment", "_episode"]
      (by decide) (by decide) (by decide)).1,
   (display_rename_amended ["_text", "_sentiment", "_episode"]
      (by decide) (by decide) (by decide)).2.2.1⟩

/-- Claim C7: on a nonempty (possibly filtered) dataset every aggregate
percentage equals its label's count divided by the dataset's row count
times 100 and rounded to two decimals; on an empty dataset the aggregate
is empty and the KPI helper returns 0.0, so no division by zero occurs
(line 127 guards with `total == 0` and line 155 divides by
`max(total, 1)`). -/
theorem percentage_formula_safe (rows : List Row) (label : String) :
    (rows.length ≠ 0 →
      ∀ p ∈ sentCountsPct rows,
        p.2.2 = round2 ((p.2.1 : ℚ) / (rows.length : ℚ) * 100)) ∧
    (rows.length = 0 → sentCountsPct rows = [] ∧ pct_for rows label = 0) := by
  constructor
  · intro hne p hp
    have hmax : max rows.length 1 = rows.length :=
      Nat.max_eq_left (Nat.one_le_iff_ne_zero.mpr hne)
    unfold sentCountsPct at hp
    rw [List.mem_map] at hp
    obtain ⟨q, -, hq⟩ := hp
    rw [← hq]
    simp [hmax]
  · intro h0
    have hnil : rows = [] := List.length_eq_zero.mp h0
    subst hnil
    exact ⟨rfl, rfl⟩

/-- Witness for `percentage_formula_safe`: a concrete three-row dataset
is nonempty, so every aggregate percentage satisfies the rounded
formula; the empty dataset yields an empty aggregate and a 0.0 KPI. -/
theorem percentage_formula_safe_witness :
    (([⟨"a", "positive", "e"⟩, ⟨"b", "negative", "e"⟩, ⟨"c", "positive", "e"⟩] : List Row).length ≠ 0) ∧
    (∀ p ∈ sentCountsPct [⟨"a", "positive", "e"⟩, ⟨"b", "negative", "e"⟩, ⟨"c", "positive", "e"⟩],
      p.2.2 = round2 ((p.2.1 : ℚ) /
        (([⟨"a", "positive", "e"⟩, ⟨"b", "negative", "e"⟩, ⟨"c", "positive", "e"⟩] : List Row).length : ℚ) * 100)) ∧
    sentCountsPct [] = [] ∧ pct_for [] "positive" = 0 :=
  ⟨by decide,
   (percentage_formula_safe
      [⟨"a", "positive", "e"⟩, ⟨"b", "negative", "e"⟩, ⟨"c", "positive", "e"⟩] "positive").1
     (by decide),
   (percentage_formula_safe [] "positive").2 (by decide)⟩

/-!  Helper lemmas about `counterKeys` (dict key order) and the stable
count sort, used for the aggregation and keyword-ranking claims. -/

theorem counterKeys_aux (ts : List String) : ∀ acc : List String,
    ts.foldl (fun ks t => if t ∈ ks then ks else ks ++ [t]) acc =
      acc ++ counterKeysRec (ts.filter (fun x => !(x ∈ acc))) := by
  induction ts with
  | nil => intro acc; simp [counterKeysRec]
  | cons t ts ih =>
    intro acc
    rw [List.foldl_cons]
    by_cases h : t ∈ acc
    · simp only [h, if_true]
      rw [ih acc]
      congr 2
      simp [List.filter_cons, h]
    · simp only [h, if_false]
      rw [ih (acc ++ [t])]
      have hf : ts.filter (fun x => !(x ∈ acc ++ [t])) =
          (ts.filter (fun x => !(x ∈ acc))).filter (fun x => !(x = t)) := by
        rw [List.filter_filter]
        apply List.filter_congr
        intro x _
        by_cases hx1 : x = t <;> by_cases hx2 : x ∈ acc <;> simp [hx1, hx2]
      have hcons : (t :: ts).filter (fun x => !(x ∈ acc)) =
          t :: ts.filter (fun x => !(x ∈ acc)) := by
        simp [List.filter_cons, h]
      rw [hcons, counterKeysRec, hf, List.append_assoc]
      rfl

theorem counterKeys_eq_rec (ts : List String) : counterKeys ts = counterKeysRec ts := by
  unfold counterKeys
  rw [counterKeys_aux ts []]
  simp

theorem mem_counterKeysRec : ∀ ts : List String, ∀ k, k ∈ counterKeysRec ts ↔ k ∈ ts := by
  intro ts
  induction ts using counterKeysRec.induct with
  | case1 => intro k; rw [counterKeysRec]
  | case2 t ts ih =>
    intro k
    rw [counterKeysRec]
    by_cases hk : k = t
    · simp [hk]
    · simp only [List.mem_cons, hk, false_or]
      rw [ih k, List.mem_filter]
      simp [hk]

theorem nodup_counterKeysRec : ∀ ts : List String, (counterKeysRec ts).Nodup := by
  intro ts
  induction ts using counterKeysRec.induct with
  | case1 => rw [counterKeysRec]; exact List.nodup_nil
  | case2 t ts ih =>
    rw [counterKeysRec]
    refine List.Nodup.cons ?_ ih
    intro hmem
    have := (mem_counterKeysRec _ t).1 hmem
    rw [List.mem_filter] at this
    simpa using this.2

theorem counterKeys_perm_dedup (ts : List String) : (counterKeys ts).Perm ts.dedup := by
  rw [counterKeys_eq_rec]
  rw [List.perm_ext_iff_of_nodup (nodup_counterKeysRec ts) (List.nodup_dedup ts)]
  intro a
  rw [mem_counterKeysRec, List.mem_dedup]

theorem sum_counterItems (ts : List String) :
    ((counterItems ts).map (fun p => p.2)).sum = ts.length := by
  unfold counterItems
  rw [List.map_map]
  have hperm : ((counterKeys ts).map (fun k => ts.count k)).Perm
      (ts.dedup.map (fun k => ts.count k)) := (counterKeys_perm_dedup ts).map _
  calc ((counterKeys ts).map ((fun p : String × Nat => p.2) ∘ (fun k => (k, ts.count k)))).sum
      = ((counterKeys ts).map (fun k => ts.count k)).sum := rfl
    _ = (ts.dedup.map (fun k => ts.count k)).sum := hperm.sum_eq
    _ = ts.length := List.sum_map_count_dedup_eq_length ts

theorem insertDesc_perm (p : String × Nat) : ∀ acc : List (String × Nat),
    (insertDesc acc p).Perm (p :: acc) := by
  intro acc
  induction acc with
  | nil => exact List.Perm.refl _
  | cons q qs ih =>
    rw [insertDesc]
    split
    · exact List.Perm.refl _
    · exact List.Perm.trans (ih.cons q) (List.Perm.swap p q qs)

theorem sortCountDesc_perm_aux (l : List (String × Nat)) : ∀ acc : List (String × Nat),
    (l.foldl insertDesc acc).Perm (l ++ acc) := by
  induction l with
  | nil => intro acc; simp
  | cons p l ih =>
    intro acc
    rw [List.foldl_cons]
    refine List.Perm.trans (ih (insertDesc acc p)) ?_
    refine List.Perm.trans (List.Perm.append_left l (insertDesc_perm p acc)) ?_
    exact List.perm_middle

theorem sortCountDesc_perm (l : List (String × Nat)) : (sortCountDesc l).Perm l := by
  unfold sortCountDesc
  have := sortCountDesc_perm_aux l []
  simpa using this

/-- Claim C6: for every dataset (hence also every filtered derivation),
the per-label sentiment counts form a partition of the rows: the counts
of `sentCounts` sum to the dataset's row count — every row carries
exactly one sentiment value after normalization. -/
theorem sent_counts_partition (rows : List Row) :
    ((sentCounts rows).map (fun p => p.2)).sum = rows.length := by
  unfold sentCounts
  have hperm : ((sortCountDesc (counterItems (rows.map (fun r => r.sentiment)))).map
      (fun p : String × Nat => p.2)).Perm
      ((counterItems (rows.map (fun r => r.sentiment))).map (fun p => p.2)) :=
    (sortCountDesc_perm _).map _
  rw [hperm.sum_eq, sum_counterItems, List.length_map]

theorem pairwise_insertDesc (p : String × Nat) : ∀ acc : List (String × Nat),
    List.Pairwise (fun a b : String × Nat => b.2 ≤ a.2) acc →
    List.Pairwise (fun a b : String × Nat => b.2 ≤ a.2) (insertDesc acc p) := by
  intro acc
  induction acc with
  | nil => intro _; exact List.pairwise_singleton _ p
  | cons q qs ih =>
    intro h
    rw [List.pairwise_cons] at h
    obtain ⟨hq, hqs⟩ := h
    rw [insertDesc]
    split
    case isTrue hgt =>
      rw [List.pairwise_cons]
      constructor
      · intro x hx
        rcases List.mem_cons.mp hx with rfl | hx'
        · exact Nat.le_of_lt hgt
        · exact Nat.le_trans (hq x hx') (Nat.le_of_lt hgt)
      · rw [List.pairwise_cons]
        exact ⟨hq, hqs⟩
    case isFalse hle =>
      rw [List.pairwise_cons]
      constructor
      · intro x hx
        rcases List.mem_cons.mp ((insertDesc_perm p qs).mem_iff.mp hx) with rfl | h1
        · exact Nat.le_of_not_lt hle
        · exact hq x h1
      · exact ih hqs

theorem filter_insertDesc (p : String × Nat) (c : Nat) : ∀ acc : List (String × Nat),
    List.Pairwise (fun a b : String × Nat => b.2 ≤ a.2) acc →
    (insertDesc acc p).filter (fun x => x.2 = c) =
      acc.filter (fun x => x.2 = c) ++ (if p.2 = c then [p] else []) := by
  intro acc
  induction acc with
  | nil =>
    intro _
    rw [insertDesc]
    by_cases hp : p.2 = c <;> simp [List.filter_cons, hp]
  | cons q qs ih =>
    intro h
    rw [List.pairwise_cons] at h
    obtain ⟨hq, hqs⟩ := h
    rw [insertDesc]
    split
    case isTrue hgt =>
      by_cases hp : p.2 = c
      · have hnone : (q :: qs).filter (fun x => decide (x.2 = c)) = [] := by
          rw [List.filter_eq_nil_iff]
          intro x hx
          have hxle : x.2 ≤ q.2 := by
            rcases List.mem_cons.mp hx with rfl | hx'
            · exact Nat.le_refl _
            · exact hq x hx'
          have : x.2 < p.2 := Nat.lt_of_le_of_lt hxle hgt
          simp only [decide_eq_true_eq]
          omega
        rw [List.filter_cons]
        simp [hp, hnone]
      · rw [List.filter_cons]
        simp [hp]
    case isFalse hle =>
      rw [List.filter_cons, List.filter_cons]
      by_cases hqc : q.2 = c <;> simp [hqc, ih hqs]

theorem sortCD_invariant (l : List (String × Nat)) : ∀ acc : List (String × Nat),
    List.Pairwise (fun a b : String × Nat => b.2 ≤ a.2) acc →
    List.Pairwise (fun a b : String × Nat => b.2 ≤ a.2) (l.foldl insertDesc acc) ∧
    ∀ c, (l.foldl insertDesc acc).filter (fun x => x.2 = c) =
      acc.filter (fun x => x.2 = c) ++ l.filter (fun x => x.2 = c) := by
  induction l with
  | nil =>
    intro acc h
    exact ⟨h, fun c => by simp⟩
  | cons p l ih =>
    intro acc h
    rw [List.foldl_cons]
    have hacc' := pairwise_insertDesc p acc h
    obtain ⟨hs, hf⟩ := ih (insertDesc acc p) hacc'
    refine ⟨hs, fun c => ?_⟩
    rw [hf c, filter_insertDesc p c acc h, List.filter_cons]
    by_cases hp : p.2 = c <;> simp [hp]

theorem sortCountDesc_sorted (l : List (String × Nat)) :
    List.Pairwise (fun a b : String × Nat => b.2 ≤ a.2) (sortCountDesc l) :=
  (sortCD_invariant l [] List.Pairwise.nil).1

theorem sortCountDesc_filter (l : List (String × Nat)) (c : Nat) :
    (sortCountDesc l).filter (fun x => x.2 = c) = l.filter (fun x => x.2 = c) := by
  have := (sortCD_invariant l [] List.Pairwise.nil).2 c
  simpa using this

theorem findIdx_filter_lt (p : String → Bool) : ∀ l : List String, ∀ k1 k2 : String,
    k1 ∈ l.filter p → k2 ∈ l.filter p →
    List.findIdx (fun x => x = k1) (l.filter p) < List.findIdx (fun x => x = k2) (l.filter p) →
    List.findIdx (fun x => x = k1) l < List.findIdx (fun x => x = k2) l := by
  intro l
  induction l with
  | nil => intro k1 k2 h1 _ _; simp at h1
  | cons h l ih =>
    intro k1 k2 h1 h2 hlt
    by_cases hp : p h
    · have hfil : (h :: l).filter p = h :: l.filter p := by simp [List.filter_cons, hp]
      rw [hfil] at h1 h2 hlt
      by_cases hk1 : h = k1
      · subst hk1
        by_cases hk2 : h = k2
        · subst hk2
          simp [List.findIdx_cons] at hlt
        · simp [List.findIdx_cons, hk2]
      · by_cases hk2 : h = k2
        · subst hk2
          simp [List.findIdx_cons, hk1] at hlt
        · simp [List.findIdx_cons, hk1, hk2] at hlt ⊢
          have hm1 : k1 ∈ l.filter p := by
            rcases List.mem_cons.mp h1 with rfl | hx
            · exact absurd rfl hk1
            · exact hx
          have hm2 : k2 ∈ l.filter p := by
            rcases List.mem_cons.mp h2 with rfl | hx
            · exact absurd rfl hk2
            · exact hx
          have := ih k1 k2 hm1 hm2 hlt
          omega
    · have hfil : (h :: l).filter p = l.filter p := by simp [List.filter_cons, hp]
      rw [hfil] at h1 h2 hlt
      have hk1 : ¬ h = k1 := by
        intro he
        subst he
        exact hp (List.mem_filter.mp h1).2
      have hk2 : ¬ h = k2 := by
        intro he
        subst he
        exact hp (List.mem_filter.mp h2).2
      simp [List.findIdx_cons, hk1, hk2]
      have := ih k1 k2 h1 h2 hlt
      omega

theorem counterKeysRec_order : ∀ ts : List String, ∀ k1 k2 : String,
    List.Sublist [k1, k2] (counterKeysRec ts) →
    List.findIdx (fun x => x = k1) ts < List.findIdx (fun x => x = k2) ts := by
  intro ts
  induction ts using counterKeysRec.induct with
  | case1 =>
    intro k1 k2 h
    rw [counterKeysRec] at h
    simp at h
  | case2 t ts ih =>
    intro k1 k2 h
    rw [counterKeysRec] at h
    cases h with
    | cons _ h' =>
      have hm1 : k1 ∈ ts.filter (fun x => !(x = t)) :=
        (mem_counterKeysRec _ k1).1 (h'.subset (by simp))
      have hm2 : k2 ∈ ts.filter (fun x => !(x = t)) :=
        (mem_counterKeysRec _ k2).1 (h'.subset (by simp))
      have hk1t : ¬ k1 = t := by simpa using (List.mem_filter.mp hm1).2
      have hk2t : ¬ k2 = t := by simpa using (List.mem_filter.mp hm2).2
      have ht1 : ¬ t = k1 := fun he => hk1t he.symm
      have ht2 : ¬ t = k2 := fun he => hk2t he.symm
      have hlt := ih k1 k2 h'
      have htrans := findIdx_filter_lt (fun x => !(x = t)) ts k1 k2 hm1 hm2 hlt
      simp [List.findIdx_cons, ht1, ht2]
      omega
    | cons₂ _ h' =>
      have hm2 : k2 ∈ ts.filter (fun x => !(x = t)) :=
        (mem_counterKeysRec _ k2).1 (h'.subset (by simp))
      have hk2t : ¬ k2 = t := by simpa using (List.mem_filter.mp hm2).2
      have ht2 : ¬ t = k2 := fun he => hk2t he.symm
      simp [List.findIdx_cons, ht2]

theorem mem_extract_top_keywords (texts : List String) (n minLen : Nat)
    (p : String × Nat) (hp : p ∈ extract_top_keywords texts n minLen) :
    p.1 ∈ keptTokens texts minLen ∧ p.2 = (keptTokens texts minLen).count p.1 := by
  unfold extract_top_keywords mostCommon at hp
  have hp2 : p ∈ sortCountDesc (counterItems (keptTokens texts minLen)) :=
    (List.take_sublist n _).subset hp
  have hp3 : p ∈ counterItems (keptTokens texts minLen) :=
    (sortCountDesc_perm _).mem_iff.mp hp2
  unfold counterItems at hp3
  rw [List.mem_map] at hp3
  obtain ⟨k, hk, hkp⟩ := hp3
  have hk2 : k ∈ keptTokens texts minLen := by
    rw [counterKeys_eq_rec] at hk
    exact (mem_counterKeysRec _ k).1 hk
  rw [← hkp]
  exact ⟨hk2, rfl⟩

/-- Claim C2: for every input text sequence and every `top_n ≥ 1`, the
keyword extractor returns at most `top_n` pairs, ordered by
non-increasing count, each count at least 1; and whenever a pair `x`
appears before a pair `y` with the same count, `x`'s token first occurs
in the kept token stream strictly before `y`'s token ("ties broken by
order of first appearance"). -/
theorem extract_top_keywords_ranking (texts : List String) (n minLen : Nat)
    (hn : 1 ≤ n) :
    (extract_top_keywords texts n minLen).length ≤ n ∧
    List.Pairwise (fun a b : String × Nat => b.2 ≤ a.2)
      (extract_top_keywords texts n minLen) ∧
    (∀ p ∈ extract_top_keywords texts n minLen, 1 ≤ p.2) ∧
    (∀ x y : String × Nat,
      List.Sublist [x, y] (extract_top_keywords texts n minLen) → x.2 = y.2 →
      List.findIdx (fun w => w = x.1) (keptTokens texts minLen) <
        List.findIdx (fun w => w = y.1) (keptTokens texts minLen)) := by
  refine ⟨?_, ?_, ?_, ?_⟩
  · unfold extract_top_keywords mostCommon
    rw [List.length_take]
    exact min_le_left _ _
  · exact List.Pairwise.sublist (List.take_sublist n _) (sortCountDesc_sorted _)
  · intro p hp
    obtain ⟨hmem, hcount⟩ := mem_extract_top_keywords texts n minLen p hp
    rw [hcount]
    exact List.count_pos_iff.mpr hmem
  · intro x y hxy hc
    have hS : List.Sublist [x, y] (sortCountDesc (counterItems (keptTokens texts minLen))) :=
      hxy.trans (List.take_sublist n _)
    have hfil : List.filter (fun z : String × Nat => z.2 = x.2) [x, y] = [x, y] := by
      simp [List.filter_cons, hc]
    have hSf : List.Sublist [x, y]
        ((sortCountDesc (counterItems (keptTokens texts minLen))).filter
          (fun z : String × Nat => z.2 = x.2)) := by
      rw [← hfil]
      exact hS.filter _
    rw [sortCountDesc_filter] at hSf
    have hitems : List.Sublist [x, y] (counterItems (keptTokens texts minLen)) :=
      hSf.trans (List.filter_sublist _)
    have hkeys : List.Sublist [x.1, y.1] (counterKeys (keptTokens texts minLen)) := by
      have hmap := hitems.map (fun p : String × Nat => p.1)
      have heq : (counterItems (keptTokens texts minLen)).map (fun p : String × Nat => p.1) =
          counterKeys (keptTokens texts minLen) := by
        unfold counterItems
        rw [List.map_map]
        exact List.map_id _
      rw [heq] at hmap
      simpa using hmap
    rw [counterKeys_eq_rec] at hkeys
    exact counterKeysRec_order _ x.1 y.1 hkeys

/-- Witness for `extract_top_keywords_ranking` on a concrete corpus with
a tie: "good" and "show" both occur twice, "good" first. -/
theorem extract_top_keywords_ranking_witness :
    (1 ≤ 5) ∧
    (extract_top_keywords ["good show good", "bad show"] 5 3).length ≤ 5 ∧
    (∀ p ∈ extract_top_keywords ["good show good", "bad show"] 5 3, 1 ≤ p.2) ∧
    (∀ x y : String × Nat,
      List.Sublist [x, y] (extract_top_keywords ["good show good", "bad show"] 5 3) →
      x.2 = y.2 →
      List.findIdx (fun w => w = x.1) (keptTokens ["good show good", "bad show"] 3) <
        List.findIdx (fun w => w = y.1) (keptTokens ["good show good", "bad show"] 3)) :=
  ⟨by decide,
   (extract_top_keywords_ranking ["good show good", "bad show"] 5 3 (by decide)).1,
   (extract_top_keywords_ranking ["good show good", "bad show"] 5 3 (by decide)).2.2.1,
   (extract_top_keywords_ranking ["good show good", "bad show"] 5 3 (by decide)).2.2.2⟩

/-- Claim C3: every token returned by the keyword extractor has length
at least `min_len` and is not a member of the fixed stopword set. -/
theorem extract_top_keywords_clean (texts : List String) (n minLen : Nat) :
    ∀ p ∈ extract_top_keywords texts n minLen,
      minLen ≤ p.1.length ∧ p.1 ∉ STOPWORDS := by
  intro p hp
  have hmem := (mem_extract_top_keywords texts n minLen p hp).1
  unfold keptTokens at hmem
  rw [List.mem_filter] at hmem
  have hkeep := hmem.2
  unfold keepToken at hkeep
  simp only [Bool.and_eq_true, Bool.not_eq_true'] at hkeep
  constructor
  · have := hkeep.1.1
    simp only [decide_eq_false_iff_not, Nat.not_lt] at this
    exact this
  · intro hstop
    have hcontains : STOPWORDS.contains p.1 = true := by
      rw [List.contains, List.elem_iff]
      exact hstop
    rw [hkeep.1.2] at hcontains
    exact Bool.false_ne_true hcontains

/-- Witness for `extract_top_keywords_clean`: the pair ("good", 2) is in
the extractor output for a concrete corpus; "good" has length ≥ 3 and is
no stopword. -/
theorem extract_top_keywords_clean_witness :
    ("good", 2) ∈ extract_top_keywords ["good show good", "bad show"] 5 3 ∧
    (3 ≤ ("good" : String).length ∧ ("good" : String) ∉ STOPWORDS) :=
  ⟨by decide,
   extract_top_keywords_clean ["good show good", "bad show"] 5 3 ("good", 2) (by decide)⟩
